import Mathlib

/-!
Shallow embedding of `src/server.js` (tmdb-images-api): the `/images` request
handler.  The handler selects the first movie/tv result of an upstream multi
search, fetches the entity's image catalog, groups backdrop / poster / logo
assets into language buckets, computes the skipped-category labels, and
returns the payload.  Upstream responses (the parsed search-result list and
the parsed image catalog) are passed in as values; the second component of
the handler's result counts how many outbound upstream calls were executed
on that control path (0, 1 or 2), mirroring the sequential `await` structure
of the source.
-/

/-- Upstream search result record (the fields the handler reads).
`title` and `name` are absent or a string; in JS an empty string is falsy. -/
structure SearchResult where
  media_type : String
  id : Nat
  title : Option String
  name : Option String
  deriving DecidableEq

/-- Upstream image asset: `iso_639_1` is the language code (`none` models the
JSON `null`, i.e. a language-agnostic asset) and `file_path` the relative path. -/
structure ImageAsset where
  iso_639_1 : Option String
  file_path : String
  deriving DecidableEq

/-- Upstream image catalog (`imagesResp.data`). -/
structure Images where
  backdrops : List ImageAsset
  posters : List ImageAsset
  logos : List ImageAsset
  deriving DecidableEq

/-- `IMG_URL` of server.js: the fixed image-hosting base. -/
def IMG_URL : String := "https://image.tmdb.org/t/p/original"

/-- The predicate of line 44: `r.media_type === "movie" || r.media_type === "tv"`. -/
def isMovieOrTv (r : SearchResult) : Bool :=
  r.media_type == "movie" || r.media_type == "tv"

/-- Line 43-45: `results.find(movie-or-tv) || results[0]`.  `find` yields the
first qualifying element; the fallback is the head of the list.  Elements are
objects, hence truthy, so JS `||` falls through exactly when `find` misses. -/
def selectFirst (results : List SearchResult) : Option SearchResult :=
  match results.find? isMovieOrTv with
  | some r => some r
  | none => results.head?

/-- A grouped-images object: JS object with string keys and array values, in
insertion order (language codes are not array indices, so JS preserves
insertion order). -/
abbrev StrMap := List (String × List String)

/-- Value stored at key `k` (a JS property read of an array-valued key;
defaults to the empty list for an absent key). -/
def lookupD : StrMap → String → List String
  | [], _ => []
  | (k0, v) :: rest, k => if k0 == k then v else lookupD rest k

/-- Whether the object has key `k`. -/
def hasKey : StrMap → String → Bool
  | [], _ => false
  | (k0, _) :: rest, k => k0 == k || hasKey rest k

/-- `obj[k].push(v)`: append `v` to the array stored at `k`.  On every path of
server.js the key is present when pushed; for an absent key this is a no-op. -/
def pushAt : StrMap → String → String → StrMap
  | [], _, _ => []
  | (k0, vs) :: rest, k, v =>
    if k0 == k then (k0, vs ++ [v]) :: rest else (k0, vs) :: pushAt rest k v

/-- Line 99: `if (!groupedLogos[lang]) groupedLogos[lang] = []` — create the
key with an empty array unless it is already present (arrays are truthy). -/
def ensureKey (m : StrMap) (k : String) : StrMap :=
  if hasKey m k then m else m ++ [(k, [])]

/-- Lines 79 and 98: `x === null ? "null" : x` — the language key of an asset,
the literal string `"null"` standing for an absent code. -/
def langKey : Option String → String
  | none => "null"
  | some s => s

/-- Line 80's guard: `backdropLangs.includes(b.iso_639_1) || lang === "null"`
with `backdropLangs = ["en", "hi", null]`. -/
def backdropKeep (b : ImageAsset) : Bool :=
  ([some "en", some "hi", none] : List (Option String)).contains b.iso_639_1
    || langKey b.iso_639_1 == "null"

/-- Body of the `forEach` of lines 78-83. -/
def backdropStep (g : StrMap) (b : ImageAsset) : StrMap :=
  if backdropKeep b then pushAt g (langKey b.iso_639_1) (IMG_URL ++ b.file_path)
  else g

/-- Lines 76-83: `groupedBackdrops`, starting from `{ en: [], hi: [], null: [] }`. -/
def groupBackdrops (assets : List ImageAsset) : StrMap :=
  assets.foldl backdropStep [("en", []), ("hi", []), ("null", [])]

/-- Line 86: `posterLangs`. -/
def posterLangs : List String := ["en", "hi", "ta", "te", "ja", "ko"]

/-- Line 90's guard: `posterLangs.includes(p.iso_639_1)`; `includes(null)` is
false, so an asset with no language code is dropped. -/
def posterKeep (p : ImageAsset) : Bool :=
  match p.iso_639_1 with
  | some lang => posterLangs.contains lang
  | none => false

/-- Body of the `forEach` of lines 88-93. -/
def posterStep (g : StrMap) (p : ImageAsset) : StrMap :=
  match p.iso_639_1 with
  | some lang =>
    if posterLangs.contains lang then pushAt g lang (IMG_URL ++ p.file_path) else g
  | none => g

/-- Lines 86-93: `groupedPosters`, starting from the six pre-initialized
empty buckets (`Object.fromEntries(posterLangs.map(l => [l, []]))`). -/
def groupPosters (assets : List ImageAsset) : StrMap :=
  assets.foldl posterStep (posterLangs.map (fun l => (l, [])))

/-- Body of the `forEach` of lines 97-101: create the bucket lazily, then push. -/
def logoStep (g : StrMap) (a : ImageAsset) : StrMap :=
  pushAt (ensureKey g (langKey a.iso_639_1)) (langKey a.iso_639_1)
    (IMG_URL ++ a.file_path)

/-- Lines 96-101: `groupedLogos`, starting from the empty object. -/
def groupLogos (assets : List ImageAsset) : StrMap :=
  assets.foldl logoStep []

/-- Lines 104-120: the `skipped` list, built in order backdrops, posters,
logos.  JS truthiness of `.length` is modelled as comparison with 0. -/
def skippedOf (gb gp gl : StrMap) : List String :=
  let s1 : List String :=
    if (lookupD gb "en").length == 0 && (lookupD gb "hi").length == 0
        && (lookupD gb "null").length == 0
    then ["Backdrops (en/hi/null)"] else []
  let posterSectionsSkipped := posterLangs.filter (fun l => (lookupD gp l).length == 0)
  let s2 : List String :=
    if posterSectionsSkipped.length != 0
    then ["Posters (" ++ String.intercalate ", " posterSectionsSkipped ++ ")"] else []
  let s3 : List String := if gl.length == 0 then ["Logos (All Languages)"] else []
  s1 ++ s2 ++ s3

/-- JS whitespace for `String.prototype.trim` (the characters relevant here). -/
def isJsWhitespace (c : Char) : Bool :=
  c == ' ' || c == '\t' || c == '\n' || c == '\r'

/-- JS `s.trim()`: drop leading and trailing whitespace. -/
def jsTrim (s : String) : String :=
  ⟨((s.data.dropWhile isJsWhitespace).reverse.dropWhile isJsWhitespace).reverse⟩

/-- JS string truthiness of an optional value: `undefined` and `""` are falsy. -/
def strTruthy : Option String → Bool
  | some s => !(s == "")
  | none => false

/-- JS `a || d` on an optional string with a string default. -/
def jsOr (o : Option String) (d : String) : String :=
  match o with
  | some s => if s == "" then d else s
  | none => d

/-- Line 60: `first.title || first.name || "Unknown"`. -/
def jsTitle (r : SearchResult) : String := jsOr r.title (jsOr r.name "Unknown")

/-- Structured success payload of line 172-180 (the `formatted` text block is
not needed by any property and is omitted). -/
structure SuccessPayload where
  query : String
  media_type : String
  id : Nat
  title : String
  backdrops : StrMap
  posters : StrMap
  logos : StrMap
  skipped : List String
  deriving DecidableEq

/-- Outcome of one handler invocation: an error response with its HTTP status
and message, or the success payload. -/
inductive HandleOutcome where
  | err (status : Nat) (msg : String)
  | ok (payload : SuccessPayload)
  deriving DecidableEq

/-- HTTP status of an outcome (200 on success). -/
def HandleOutcome.status : HandleOutcome → Nat
  | .err s _ => s
  | .ok _ => 200

/-- Lines 23-180, the `/images` handler.  `apiKey` is `TMDB_API_KEY`
(`none` = unset), `rawQuery` the `query` request parameter, `results` the
parsed body of the search call and `images` the parsed body of the image
call.  The second component counts the outbound upstream calls executed on
the taken path: the search call happens once the credential and query checks
pass, and the image call happens only after a movie/tv entity is selected. -/
def handle (apiKey : Option String) (rawQuery : Option String)
    (results : List SearchResult) (images : Images) : HandleOutcome × Nat :=
  let query := jsTrim (rawQuery.getD "")
  if !(strTruthy apiKey) then
    (.err 500 "TMDB_API_KEY missing in environment variables", 0)
  else if query == "" then
    (.err 400 "query param is required", 0)
  else
    match selectFirst results with
    | none => (.err 404 "No result found", 1)
    | some fst =>
      if !(fst.media_type == "movie") && !(fst.media_type == "tv") then
        (.err 404 "Top result is not a movie/tv. Try a more specific query (person results are skipped).", 1)
      else
        let gb := groupBackdrops images.backdrops
        let gp := groupPosters images.posters
        let gl := groupLogos images.logos
        (.ok { query := query
               media_type := fst.media_type
               id := fst.id
               title := jsTitle fst
               backdrops := gb
               posters := gp
               logos := gl
               skipped := skippedOf gb gp gl }, 2)

/-- Key list produced by repeatedly adding keys at the end unless present:
the shape of the lazily-created logo buckets. -/
def addKeys (acc : List String) : List String → List String
  | [] => acc
  | k :: rest => addKeys (if acc.contains k then acc else acc ++ [k]) rest

/-- Modelled from the spec: the distinct language keys of a list, in
first-seen order ("buckets are created lazily — only languages actually
present in the response appear as keys").  Spec-side comparison definition
for the logo grouping. -/
def specFirstSeen : List String → List String
  | [] => []
  | k :: rest => k :: (specFirstSeen rest).filter (fun x => !(x == k))

/-! ### Helper lemmas about the string-keyed object model -/

theorem contains_iff (l : List String) (x : String) : l.contains x = true ↔ x ∈ l := by
  simp [List.contains, List.elem_iff]

theorem keys_pushAt (m : StrMap) (k v : String) :
    (pushAt m k v).map Prod.fst = m.map Prod.fst := by
  induction m with
  | nil => rfl
  | cons p rest ih =>
    obtain ⟨k0, vs⟩ := p
    cases h : k0 == k <;> simp [pushAt, h, ih]

theorem hasKey_iff (m : StrMap) (k : String) :
    hasKey m k = true ↔ k ∈ m.map Prod.fst := by
  induction m with
  | nil => simp [hasKey]
  | cons p rest ih =>
    obtain ⟨k0, vs⟩ := p
    simp only [hasKey, List.map_cons, List.mem_cons, Bool.or_eq_true, ih, beq_iff_eq]
    constructor
    · rintro (h | h)
      · exact Or.inl h.symm
      · exact Or.inr h
    · rintro (h | h)
      · exact Or.inl h.symm
      · exact Or.inr h

theorem lookupD_pushAt_self (m : StrMap) (k v : String) (h : hasKey m k = true) :
    lookupD (pushAt m k v) k = lookupD m k ++ [v] := by
  induction m with
  | nil => simp [hasKey] at h
  | cons p rest ih =>
    obtain ⟨k0, vs⟩ := p
    cases hk : k0 == k with
    | true => simp [pushAt, lookupD, hk]
    | false =>
      have h2 : hasKey rest k = true := by simpa [hasKey, hk] using h
      simp [pushAt, lookupD, hk, ih h2]

theorem lookupD_pushAt_ne (m : StrMap) (k1 k v : String) (h : (k1 == k) = false) :
    lookupD (pushAt m k1 v) k = lookupD m k := by
  induction m with
  | nil => rfl
  | cons p rest ih =>
    obtain ⟨k0, vs⟩ := p
    cases hk : k0 == k1 with
    | true =>
      have e : k0 = k1 := by simpa [beq_iff_eq] using hk
      subst e
      simp [pushAt, lookupD, hk, h]
    | false => simp [pushAt, lookupD, hk, ih]

theorem lookupD_eq_nil_of_hasKey_eq_false (m : StrMap) (k : String)
    (h : hasKey m k = false) : lookupD m k = [] := by
  induction m with
  | nil => rfl
  | cons p rest ih =>
    obtain ⟨k0, vs⟩ := p
    cases hk : k0 == k with
    | true => simp [hasKey, hk] at h
    | false =>
      have h2 : hasKey rest k = false := by simpa [hasKey, hk] using h
      simp [lookupD, hk, ih h2]

theorem lookupD_append_single (m : StrMap) (k1 k : String) :
    lookupD (m ++ [(k1, [])]) k = lookupD m k := by
  induction m with
  | nil =>
    cases hk : k1 == k <;> simp [lookupD, hk]
  | cons p rest ih =>
    obtain ⟨k0, vs⟩ := p
    cases hk : k0 == k <;> simp [lookupD, hk, ih]

theorem hasKey_append_single (m : StrMap) (k1 k : String) :
    hasKey (m ++ [(k1, [])]) k = (hasKey m k || (k1 == k)) := by
  induction m with
  | nil => simp [hasKey]
  | cons p rest ih =>
    obtain ⟨k0, vs⟩ := p
    cases hk : k0 == k <;> simp [hasKey, hk, ih, Bool.or_assoc]

theorem lookupD_ensureKey (m : StrMap) (k1 k : String) :
    lookupD (ensureKey m k1) k = lookupD m k := by
  unfold ensureKey
  cases h : hasKey m k1 with
  | true => simp
  | false => simp [lookupD_append_single]

theorem hasKey_ensureKey_self (m : StrMap) (k : String) :
    hasKey (ensureKey m k) k = true := by
  unfold ensureKey
  cases h : hasKey m k with
  | true => simp [h]
  | false => simp [hasKey_append_single, h]

theorem keys_ensureKey (m : StrMap) (k : String) :
    (ensureKey m k).map Prod.fst
      = if (m.map Prod.fst).contains k then m.map Prod.fst
        else m.map Prod.fst ++ [k] := by
  unfold ensureKey
  have hck : hasKey m k = (m.map Prod.fst).contains k := by
    rw [Bool.eq_iff_iff, hasKey_iff, contains_iff]
  rw [hck]
  cases h : (m.map Prod.fst).contains k <;> simp [h]

theorem lookupD_all_nil (m : StrMap) (h : ∀ p ∈ m, p.2 = ([] : List String))
    (k : String) : lookupD m k = [] := by
  induction m with
  | nil => rfl
  | cons p rest ih =>
    obtain ⟨k0, vs⟩ := p
    cases hk : k0 == k with
    | true => simpa [lookupD, hk] using h (k0, vs) (by simp)
    | false =>
      simp [lookupD, hk, ih (fun q hq => h q (by simp [hq]))]

/-! ### Fold lemmas for the three groupings -/

theorem backdropKeep_iff (b : ImageAsset) :
    backdropKeep b = true ↔ langKey b.iso_639_1 ∈ (["en", "hi", "null"] : List String) := by
  cases h : b.iso_639_1 with
  | none => simp [backdropKeep, langKey, h]
  | some s =>
    simp [backdropKeep, langKey, h, List.contains, List.elem_iff, beq_iff_eq]
    exact or_assoc

theorem keys_foldl_backdropStep (assets : List ImageAsset) (m : StrMap) :
    (assets.foldl backdropStep m).map Prod.fst = m.map Prod.fst := by
  induction assets generalizing m with
  | nil => rfl
  | cons a rest ih =>
    rw [List.foldl_cons, ih]
    unfold backdropStep
    cases h : backdropKeep a <;> simp [keys_pushAt]

theorem lookupD_foldl_backdropStep (assets : List ImageAsset) (m : StrMap)
    (hm : m.map Prod.fst = ["en", "hi", "null"]) (k : String) :
    lookupD (assets.foldl backdropStep m) k
      = lookupD m k
        ++ (assets.filter (fun b => backdropKeep b && (langKey b.iso_639_1 == k))).map
            (fun b => IMG_URL ++ b.file_path) := by
  induction assets generalizing m with
  | nil => simp
  | cons a rest ih =>
    rw [List.foldl_cons]
    cases hkeep : backdropKeep a with
    | false =>
      have hstep : backdropStep m a = m := by simp [backdropStep, hkeep]
      rw [hstep, ih m hm]
      simp [List.filter_cons, hkeep]
    | true =>
      have hstep : backdropStep m a
          = pushAt m (langKey a.iso_639_1) (IMG_URL ++ a.file_path) := by
        simp [backdropStep, hkeep]
      have hkeys : (pushAt m (langKey a.iso_639_1) (IMG_URL ++ a.file_path)).map Prod.fst
          = ["en", "hi", "null"] := by
        rw [keys_pushAt, hm]
      rw [hstep, ih _ hkeys]
      cases hlang : langKey a.iso_639_1 == k with
      | true =>
        have he : langKey a.iso_639_1 = k := by simpa [beq_iff_eq] using hlang
        have hhas : hasKey m k = true := by
          rw [hasKey_iff, hm]
          exact he ▸ (backdropKeep_iff a).mp hkeep
        rw [he, lookupD_pushAt_self m k _ hhas]
        simp [List.filter_cons, hkeep, hlang]
      | false =>
        rw [lookupD_pushAt_ne m _ k _ hlang]
        simp [List.filter_cons, hkeep, hlang]

theorem keys_foldl_posterStep (assets : List ImageAsset) (m : StrMap) :
    (assets.foldl posterStep m).map Prod.fst = m.map Prod.fst := by
  induction assets generalizing m with
  | nil => rfl
  | cons a rest ih =>
    rw [List.foldl_cons, ih]
    unfold posterStep
    cases hiso : a.iso_639_1 with
    | none => rfl
    | some lang =>
      by_cases hc : lang ∈ posterLangs
      · simp [hc, keys_pushAt]
      · simp [hc]

theorem lookupD_foldl_posterStep (assets : List ImageAsset) (m : StrMap)
    (hm : m.map Prod.fst = posterLangs) (k : String) :
    lookupD (assets.foldl posterStep m) k
      = lookupD m k
        ++ (assets.filter (fun p => posterKeep p && (p.iso_639_1 == some k))).map
            (fun p => IMG_URL ++ p.file_path) := by
  induction assets generalizing m with
  | nil => simp
  | cons a rest ih =>
    rw [List.foldl_cons]
    cases hiso : a.iso_639_1 with
    | none =>
      have hstep : posterStep m a = m := by simp [posterStep, hiso]
      rw [hstep, ih m hm]
      simp [List.filter_cons, posterKeep, hiso]
    | some lang =>
      by_cases hc : lang ∈ posterLangs
      case neg =>
        have hstep : posterStep m a = m := by simp [posterStep, hiso, hc]
        have hkeep : posterKeep a = false := by simp [posterKeep, hiso, contains_iff, hc]
        rw [hstep, ih m hm]
        simp [List.filter_cons, hkeep]
      case pos =>
        have hstep : posterStep m a = pushAt m lang (IMG_URL ++ a.file_path) := by
          simp [posterStep, hiso, hc]
        have hkeep : posterKeep a = true := by simp [posterKeep, hiso, contains_iff, hc]
        have hkeys : (pushAt m lang (IMG_URL ++ a.file_path)).map Prod.fst = posterLangs := by
          rw [keys_pushAt, hm]
        rw [hstep, ih _ hkeys]
        cases hlang : lang == k with
        | true =>
          have he : lang = k := by simpa [beq_iff_eq] using hlang
          subst he
          have hhas : hasKey m lang = true := by
            rw [hasKey_iff, hm]
            exact hc
          rw [lookupD_pushAt_self m lang _ hhas]
          simp [List.filter_cons, hkeep, hiso]
        | false =>
          rw [lookupD_pushAt_ne m lang k _ hlang]
          simp [List.filter_cons, hkeep, hiso, hlang]

theorem keys_logoStep (m : StrMap) (a : ImageAsset) :
    (logoStep m a).map Prod.fst
      = if (m.map Prod.fst).contains (langKey a.iso_639_1) then m.map Prod.fst
        else m.map Prod.fst ++ [langKey a.iso_639_1] := by
  unfold logoStep
  rw [keys_pushAt, keys_ensureKey]

theorem keys_foldl_logoStep (assets : List ImageAsset) (m : StrMap) :
    (assets.foldl logoStep m).map Prod.fst
      = addKeys (m.map Prod.fst) (assets.map (fun a => langKey a.iso_639_1)) := by
  induction assets generalizing m with
  | nil => rfl
  | cons a rest ih =>
    rw [List.foldl_cons, ih, List.map_cons, keys_logoStep]
    rfl

theorem lookupD_foldl_logoStep (assets : List ImageAsset) (m : StrMap) (k : String) :
    lookupD (assets.foldl logoStep m) k
      = lookupD m k
        ++ (assets.filter (fun a => langKey a.iso_639_1 == k)).map
            (fun a => IMG_URL ++ a.file_path) := by
  induction assets generalizing m with
  | nil => simp
  | cons a rest ih =>
    rw [List.foldl_cons, ih]
    cases hlang : langKey a.iso_639_1 == k with
    | true =>
      have he : langKey a.iso_639_1 = k := by simpa [beq_iff_eq] using hlang
      have h1 : lookupD (logoStep m a) k = lookupD m k ++ [IMG_URL ++ a.file_path] := by
        unfold logoStep
        rw [he, lookupD_pushAt_self _ _ _ (hasKey_ensureKey_self m k), lookupD_ensureKey]
      rw [h1]
      simp [List.filter_cons, hlang]
    | false =>
      have h1 : lookupD (logoStep m a) k = lookupD m k := by
        unfold logoStep
        rw [lookupD_pushAt_ne _ _ _ _ hlang, lookupD_ensureKey]
      rw [h1]
      simp [List.filter_cons, hlang]

/-! ### First-seen key order -/

theorem addKeys_eq_specFirstSeen (l : List String) (acc : List String) :
    addKeys acc l = acc ++ (specFirstSeen l).filter (fun x => !(acc.contains x)) := by
  induction l generalizing acc with
  | nil => simp [addKeys, specFirstSeen]
  | cons k rest ih =>
    by_cases hc : k ∈ acc
    case pos =>
      have hcb : acc.contains k = true := (contains_iff _ _).mpr hc
      have hif : (if acc.contains k then acc else acc ++ [k]) = acc := by
        rw [hcb]
        simp
      rw [addKeys, hif, ih acc]
      have hfe : (specFirstSeen (k :: rest)).filter (fun x => !(acc.contains x))
          = (specFirstSeen rest).filter (fun x => !(acc.contains x)) := by
        rw [specFirstSeen, List.filter_cons_of_neg (by simp [hc]),
          List.filter_filter]
        refine List.filter_congr ?_
        intro x hx
        cases hb : acc.contains x with
        | true => simp [hb]
        | false =>
          have hxk : (x == k) = false := by
            cases hxkb : x == k
            · rfl
            · exfalso
              have hx2 : x = k := beq_iff_eq.mp hxkb
              rw [hx2, hcb] at hb
              exact Bool.noConfusion hb
          simp [hb, hxk]
      rw [hfe]
    case neg =>
      have hcb : acc.contains k = false := by
        cases h2 : acc.contains k
        · rfl
        · exact absurd ((contains_iff _ _).mp h2) hc
      have hif : (if acc.contains k then acc else acc ++ [k]) = acc ++ [k] := by
        rw [hcb]
        simp
      rw [addKeys, hif, ih (acc ++ [k])]
      rw [specFirstSeen, List.filter_cons_of_pos (by simp [hc]), List.filter_filter]
      rw [List.append_assoc, List.singleton_append]
      refine congrArg _ (congrArg _ (List.filter_congr ?_))
      intro x hx
      have hsplit : ((acc ++ [k]).contains x) = (acc.contains x || (x == k)) := by
        rw [Bool.eq_iff_iff]
        simp [contains_iff, beq_iff_eq, List.mem_append]
      rw [hsplit]
      cases ha : acc.contains x <;> cases hk2 : x == k <;> simp

theorem mem_specFirstSeen (l : List String) (x : String) :
    x ∈ specFirstSeen l ↔ x ∈ l := by
  induction l with
  | nil => simp [specFirstSeen]
  | cons k rest ih =>
    simp only [specFirstSeen, List.mem_cons, List.mem_filter, ih, Bool.not_eq_true',
      beq_iff_eq]
    constructor
    · rintro (h | ⟨h, _⟩)
      · exact Or.inl h
      · exact Or.inr h
    · rintro (h | h)
      · exact Or.inl h
      · by_cases hxk : x = k
        · exact Or.inl hxk
        · exact Or.inr ⟨h, by simpa [beq_iff_eq] using hxk⟩
    
theorem nodup_specFirstSeen (l : List String) : (specFirstSeen l).Nodup := by
  induction l with
  | nil => simp [specFirstSeen]
  | cons k rest ih =>
    rw [specFirstSeen, List.nodup_cons]
    constructor
    · intro hk
      have h2 := (List.mem_filter.mp hk).2
      simp at h2
    · exact List.Nodup.filter _ ih

/-! ### The skipped-label strings are pairwise distinct -/

theorem postersEntry_ne_backdrops (x : String) :
    ("Posters (" ++ x ++ ")") ≠ "Backdrops (en/hi/null)" := by
  intro h
  have h2 := congrArg String.data h
  rw [String.data_append, String.data_append] at h2
  have hp : ("Posters (" : String).data = ['P', 'o', 's', 't', 'e', 'r', 's', ' ', '('] := by
    decide
  rw [hp] at h2
  have hb : ("Backdrops (en/hi/null)" : String).data
      = ['B', 'a', 'c', 'k', 'd', 'r', 'o', 'p', 's', ' ', '(', 'e', 'n', '/', 'h', 'i',
         '/', 'n', 'u', 'l', 'l', ')'] := by decide
  rw [hb] at h2
  rw [List.cons_append, List.cons_append] at h2
  injection h2 with hhead _
  exact absurd hhead (by decide)

theorem postersEntry_ne_logos (x : String) :
    ("Posters (" ++ x ++ ")") ≠ "Logos (All Languages)" := by
  intro h
  have h2 := congrArg String.data h
  rw [String.data_append, String.data_append] at h2
  have hp : ("Posters (" : String).data = ['P', 'o', 's', 't', 'e', 'r', 's', ' ', '('] := by
    decide
  rw [hp] at h2
  have hb : ("Logos (All Languages)" : String).data
      = ['L', 'o', 'g', 'o', 's', ' ', '(', 'A', 'l', 'l', ' ', 'L', 'a', 'n', 'g', 'u',
         'a', 'g', 'e', 's', ')'] := by decide
  rw [hb] at h2
  rw [List.cons_append, List.cons_append] at h2
  injection h2 with hhead _
  exact absurd hhead (by decide)

/-! ### Remaining helper facts -/

theorem lookupD_backdropInit (k : String) :
    lookupD [("en", []), ("hi", []), ("null", [])] k = [] :=
  lookupD_all_nil _ (by simp) k

theorem lookupD_posterInit (k : String) :
    lookupD (posterLangs.map (fun l => (l, []))) k = [] :=
  lookupD_all_nil _ (by simp) k

/-! ### Claim theorems: the request pipeline -/

/-- C1: whenever the upstream search sequence contains at least one element of
media_type "movie" or "tv" — written as the split l1 ++ r :: l2 with r
qualifying and everything before it non-qualifying — the handler selects
exactly that first qualifying element, regardless of its position. -/
theorem selectFirst_first_movie_tv (l1 l2 : List SearchResult) (r : SearchResult)
    (hr : isMovieOrTv r = true) (h1 : ∀ x ∈ l1, isMovieOrTv x = false) :
    selectFirst (l1 ++ r :: l2) = some r := by
  have hfind : ∀ (l : List SearchResult), (∀ x ∈ l, isMovieOrTv x = false) →
      (l ++ r :: l2).find? isMovieOrTv = some r := by
    intro l
    induction l with
    | nil =>
      intro _
      rw [List.nil_append]
      exact List.find?_cons_of_pos _ hr
    | cons a rest ih =>
      intro h
      rw [List.cons_append,
        List.find?_cons_of_neg _ (by simp [h a (List.mem_cons_self a rest)])]
      exact ih (fun x hx => h x (List.mem_cons_of_mem a hx))
  unfold selectFirst
  rw [hfind l1 h1]

/-- Witness for C1: with a person result first, the tv result in second
position is selected rather than the movie in third position. -/
theorem selectFirst_first_movie_tv_witness :
    selectFirst [⟨"person", 1, none, some "A"⟩, ⟨"tv", 2, none, some "B"⟩,
        ⟨"movie", 3, some "C", none⟩]
      = some ⟨"tv", 2, none, some "B"⟩ :=
  selectFirst_first_movie_tv [⟨"person", 1, none, some "A"⟩]
    [⟨"movie", 3, some "C", none⟩] ⟨"tv", 2, none, some "B"⟩ (by decide) (by decide)

/-- C2: a non-empty search sequence containing no movie/tv element makes the
handler fail with the wrong-type rejection (the AmbiguousQuery message), not
with the NotFound message, and only one outbound call is made — the image
fetch never happens. -/
theorem handle_allPerson_ambiguous (key q : String) (results : List SearchResult)
    (images : Images) (hk : key ≠ "") (hq : jsTrim q ≠ "") (hne : results ≠ [])
    (hall : ∀ r ∈ results, isMovieOrTv r = false) :
    handle (some key) (some q) results images
      = (.err 404 "Top result is not a movie/tv. Try a more specific query (person results are skipped).", 1) := by
  obtain ⟨r0, rest, rfl⟩ := List.exists_cons_of_ne_nil hne
  have hfind : (r0 :: rest).find? isMovieOrTv = none :=
    List.find?_eq_none.mpr (fun x hx => by simp [hall x hx])
  have hsel : selectFirst (r0 :: rest) = some r0 := by
    unfold selectFirst
    rw [hfind]
    rfl
  have h0 : isMovieOrTv r0 = false := hall r0 (List.mem_cons_self r0 rest)
  have h0m : (r0.media_type == "movie") = false := by
    cases hmt : r0.media_type == "movie"
    · rfl
    · exfalso
      rw [isMovieOrTv, hmt] at h0
      simp at h0
  have h0t : (r0.media_type == "tv") = false := by
    cases hmt : r0.media_type == "tv"
    · rfl
    · exfalso
      rw [isMovieOrTv, hmt] at h0
      simp at h0
  unfold handle
  simp [strTruthy, hk, hq, hsel, h0m, h0t]

/-- Witness for C2: a single person result is rejected with the wrong-type
message after one outbound call. -/
theorem handle_allPerson_ambiguous_witness :
    handle (some "k") (some "q") [⟨"person", 7, none, some "P"⟩] ⟨[], [], []⟩
      = (.err 404 "Top result is not a movie/tv. Try a more specific query (person results are skipped).", 1) :=
  handle_allPerson_ambiguous "k" "q" [⟨"person", 7, none, some "P"⟩] ⟨[], [], []⟩
    (by decide) (by decide) (by decide) (by decide)

/-- C7: an empty search-result sequence makes the handler fail with 404
NotFound after exactly one outbound call — the image fetch is never
attempted. -/
theorem handle_emptyResults_notFound (key q : String) (images : Images)
    (hk : key ≠ "") (hq : jsTrim q ≠ "") :
    handle (some key) (some q) [] images = (.err 404 "No result found", 1) := by
  unfold handle
  simp [strTruthy, selectFirst, hk, hq]

/-- Witness for C7 at a concrete configured request. -/
theorem handle_emptyResults_notFound_witness :
    handle (some "k") (some "q") [] ⟨[], [], []⟩ = (.err 404 "No result found", 1) :=
  handle_emptyResults_notFound "k" "q" ⟨[], [], []⟩ (by decide) (by decide)

/-- C8 (amended): when the credential is configured (truthy), a request whose
query parameter is missing or trims to the empty string gets the 400 user
error and no outbound call is made. -/
theorem handle_emptyQuery_400 (key : String) (rawq : Option String)
    (results : List SearchResult) (images : Images)
    (hk : key ≠ "") (hq : jsTrim (rawq.getD "") = "") :
    handle (some key) rawq results images
      = (.err 400 "query param is required", 0) := by
  unfold handle
  simp [strTruthy, hk, hq]

/-- Witness for C8 (amended): whitespace-only query with a configured key. -/
theorem handle_emptyQuery_400_witness :
    handle (some "k") (some "  ") [] ⟨[], [], []⟩
      = (.err 400 "query param is required", 0) :=
  handle_emptyQuery_400 "k" (some "  ") [] ⟨[], [], []⟩ (by decide) (by decide)

/-- C8 counterexample: with the credential unset and the query missing, the
handler returns status 500, not the 400 user error the claim demands for
every missing-query request (the credential check runs first). -/
theorem handle_missingQuery_counterexample :
    (handle none none [] ⟨[], [], []⟩).1.status = 500
      ∧ (handle none none [] ⟨[], [], []⟩).1.status ≠ 400
      ∧ (handle none none [] ⟨[], [], []⟩).2 = 0 := by
  refine ⟨rfl, by decide, rfl⟩

/-- C10: the credential check precedes the query check: with the credential
unset, every request — including one whose query is missing or empty — gets
the 500 configuration error with no outbound call, and the 400 query error
can only ever be produced when the credential is truthy. -/
theorem credentialCheck_precedes_queryCheck :
    (∀ (rawq : Option String) (results : List SearchResult) (images : Images),
        handle none rawq results images
          = (.err 500 "TMDB_API_KEY missing in environment variables", 0))
      ∧ (∀ (key rawq : Option String) (results : List SearchResult) (images : Images),
          (handle key rawq results images).1 = .err 400 "query param is required"
            → strTruthy key = true) := by
  constructor
  · intro rawq results images
    unfold handle
    simp [strTruthy]
  · intro key rawq results images h
    cases hT : strTruthy key with
    | true => rfl
    | false =>
      exfalso
      unfold handle at h
      rw [hT] at h
      simp at h

/-- Witness for C10: the second component applied at a concrete 400 response
proves the credential was truthy there. -/
theorem credentialCheck_precedes_queryCheck_witness :
    strTruthy (some "k") = true :=
  credentialCheck_precedes_queryCheck.2 (some "k") none [] ⟨[], [], []⟩ (by decide)

/-! ### Claim theorems: the groupings -/

/-- C3: backdrop grouping: the mapping's keys are exactly en, hi and the
no-language key "null" (never anything else); the keep-guard holds iff the
asset's language key ("null" when the code is absent, otherwise the raw code)
is one of those three; and each of the three buckets is exactly the in-order
URLs of the assets whose language key equals that bucket's key — so an asset
is appended iff its key is en, hi or the no-language key, and all other
backdrops are dropped. -/
theorem groupBackdrops_spec (assets : List ImageAsset) :
    ((groupBackdrops assets).map Prod.fst = ["en", "hi", "null"])
      ∧ (∀ b : ImageAsset,
          backdropKeep b = true
            ↔ langKey b.iso_639_1 ∈ (["en", "hi", "null"] : List String))
      ∧ (∀ k : String, k ∈ (["en", "hi", "null"] : List String) →
          lookupD (groupBackdrops assets) k
            = (assets.filter (fun b => langKey b.iso_639_1 == k)).map
                (fun b => IMG_URL ++ b.file_path)) := by
  refine ⟨?_, fun b => backdropKeep_iff b, ?_⟩
  · unfold groupBackdrops
    rw [keys_foldl_backdropStep]
    rfl
  · intro k hkmem
    unfold groupBackdrops
    rw [lookupD_foldl_backdropStep _ _ (by rfl) k, lookupD_backdropInit,
      List.nil_append]
    refine congrArg _ (List.filter_congr ?_)
    intro b hb
    cases hlang : langKey b.iso_639_1 == k with
    | true =>
      have he : langKey b.iso_639_1 = k := beq_iff_eq.mp hlang
      have hkeep : backdropKeep b = true := (backdropKeep_iff b).mpr (he ▸ hkmem)
      rw [hkeep, Bool.true_and]
    | false =>
      rw [Bool.and_false]

/-- Witness for C3 at a concrete catalog: the en bucket of a mixed catalog. -/
theorem groupBackdrops_spec_witness :
    lookupD (groupBackdrops [⟨some "fr", "/f"⟩, ⟨none, "/n"⟩, ⟨some "en", "/e"⟩]) "en"
      = (([⟨some "fr", "/f"⟩, ⟨none, "/n"⟩, ⟨some "en", "/e"⟩] : List ImageAsset).filter
          (fun b => langKey b.iso_639_1 == "en")).map (fun b => IMG_URL ++ b.file_path) :=
  (groupBackdrops_spec [⟨some "fr", "/f"⟩, ⟨none, "/n"⟩, ⟨some "en", "/e"⟩]).2.2
    "en" (by decide)

/-- C4: poster grouping: the mapping's keys are exactly the six fixed
languages en, hi, ta, te, ja, ko, each present (pre-initialized) even when
empty and never any other key; each of the six buckets is exactly the
in-order URLs of the assets whose exact language code equals the bucket key
(all other poster assets, including language-less ones, are dropped); and a
key outside the six holds nothing. -/
theorem groupPosters_spec (assets : List ImageAsset) :
    ((groupPosters assets).map Prod.fst = posterLangs)
      ∧ (posterLangs = ["en", "hi", "ta", "te", "ja", "ko"])
      ∧ (∀ k : String, k ∈ posterLangs →
          lookupD (groupPosters assets) k
            = (assets.filter (fun p => p.iso_639_1 == some k)).map
                (fun p => IMG_URL ++ p.file_path))
      ∧ (∀ k : String, ¬ k ∈ posterLangs → lookupD (groupPosters assets) k = []) := by
  have hkeys : (groupPosters assets).map Prod.fst = posterLangs := by
    unfold groupPosters
    rw [keys_foldl_posterStep]
    rfl
  refine ⟨hkeys, rfl, ?_, ?_⟩
  · intro k hkmem
    unfold groupPosters
    rw [lookupD_foldl_posterStep _ _ (by rfl) k, lookupD_posterInit,
      List.nil_append]
    refine congrArg _ (List.filter_congr ?_)
    intro p hp
    cases hiso : p.iso_639_1 with
    | none =>
      have h1 : posterKeep p = false := by simp [posterKeep, hiso]
      rw [h1, Bool.false_and]
      rfl
    | some lang =>
      cases hlang : lang == k with
      | true =>
        have he : lang = k := beq_iff_eq.mp hlang
        subst he
        have hkp : posterKeep p = true := by
          simp [posterKeep, hiso, contains_iff, hkmem]
        rw [hkp, Bool.true_and]
      | false =>
        have h2 : ((some lang : Option String) == some k) = false := by
          cases hsk : (some lang : Option String) == some k
          · rfl
          · exfalso
            have hlk : lang = k := Option.some.inj (beq_iff_eq.mp hsk)
            rw [hlk] at hlang
            simp at hlang
        rw [h2, Bool.and_false]
  · intro k hkmem
    have hnk : hasKey (groupPosters assets) k = false := by
      cases hh : hasKey (groupPosters assets) k
      · rfl
      · exact absurd (hkeys ▸ (hasKey_iff _ _).mp hh) hkmem
    exact lookupD_eq_nil_of_hasKey_eq_false _ _ hnk

/-- Witness for C4 at a concrete catalog: the ta bucket of a mixed catalog. -/
theorem groupPosters_spec_witness :
    lookupD (groupPosters [⟨some "ta", "/t"⟩, ⟨none, "/n"⟩, ⟨some "fr", "/f"⟩]) "ta"
      = (([⟨some "ta", "/t"⟩, ⟨none, "/n"⟩, ⟨some "fr", "/f"⟩] : List ImageAsset).filter
          (fun p => p.iso_639_1 == some "ta")).map (fun p => IMG_URL ++ p.file_path) :=
  (groupPosters_spec [⟨some "ta", "/t"⟩, ⟨none, "/n"⟩, ⟨some "fr", "/f"⟩]).2.2.1
    "ta" (by decide)

/-- C5: logo grouping: the keys are exactly the distinct language keys of the
upstream logo assets (with "null" standing for an absent code), in first-seen
order and without duplicates — no fewer, no more; each bucket holds exactly
the in-order URLs of the assets with that key; and every logo asset lands in
the bucket of its key — no logo asset is filtered out. -/
theorem groupLogos_spec (assets : List ImageAsset) :
    ((groupLogos assets).map Prod.fst
        = specFirstSeen (assets.map (fun a => langKey a.iso_639_1)))
      ∧ ((groupLogos assets).map Prod.fst).Nodup
      ∧ (∀ k : String, k ∈ (groupLogos assets).map Prod.fst
            ↔ k ∈ assets.map (fun a => langKey a.iso_639_1))
      ∧ (∀ k : String, lookupD (groupLogos assets) k
            = (assets.filter (fun a => langKey a.iso_639_1 == k)).map
                (fun a => IMG_URL ++ a.file_path))
      ∧ (∀ a : ImageAsset, a ∈ assets →
            (IMG_URL ++ a.file_path) ∈ lookupD (groupLogos assets) (langKey a.iso_639_1)) := by
  have hkeys : (groupLogos assets).map Prod.fst
      = specFirstSeen (assets.map (fun a => langKey a.iso_639_1)) := by
    unfold groupLogos
    rw [keys_foldl_logoStep, addKeys_eq_specFirstSeen]
    simp
  have hbuckets : ∀ k : String, lookupD (groupLogos assets) k
      = (assets.filter (fun a => langKey a.iso_639_1 == k)).map
          (fun a => IMG_URL ++ a.file_path) := by
    intro k
    unfold groupLogos
    rw [lookupD_foldl_logoStep]
    rfl
  refine ⟨hkeys, ?_, ?_, hbuckets, ?_⟩
  · rw [hkeys]
    exact nodup_specFirstSeen _
  · intro k
    rw [hkeys]
    exact mem_specFirstSeen _ _
  · intro a ha
    rw [hbuckets]
    refine List.mem_map.mpr ⟨a, ?_, rfl⟩
    exact List.mem_filter.mpr ⟨ha, by simp⟩

/-- Witness for C5: a concrete two-language catalog where the second
no-language logo joins the bucket created by the first. -/
theorem groupLogos_spec_witness :
    (IMG_URL ++ "/l3") ∈ lookupD
      (groupLogos [⟨none, "/l1"⟩, ⟨some "en", "/l2"⟩, ⟨none, "/l3"⟩])
      (langKey (⟨none, "/l3"⟩ : ImageAsset).iso_639_1) :=
  (groupLogos_spec [⟨none, "/l1"⟩, ⟨some "en", "/l2"⟩, ⟨none, "/l3"⟩]).2.2.2.2
    ⟨none, "/l3"⟩ (by decide)

/-- C9: every URL placed in any backdrop, poster or logo bucket equals the
fixed image-hosting prefix concatenated with the relative path of some asset
of the catalog — never double-prefixed, never missing the prefix. -/
theorem grouped_url_concat (assets : List ImageAsset) (k url : String) :
    (url ∈ lookupD (groupBackdrops assets) k
        → ∃ a, a ∈ assets ∧ url = IMG_URL ++ a.file_path)
      ∧ (url ∈ lookupD (groupPosters assets) k
        → ∃ a, a ∈ assets ∧ url = IMG_URL ++ a.file_path)
      ∧ (url ∈ lookupD (groupLogos assets) k
        → ∃ a, a ∈ assets ∧ url = IMG_URL ++ a.file_path) := by
  refine ⟨?_, ?_, ?_⟩ <;> intro hmem
  · unfold groupBackdrops at hmem
    rw [lookupD_foldl_backdropStep _ _ (by rfl) k, lookupD_backdropInit,
      List.nil_append] at hmem
    obtain ⟨a, ha, hurl⟩ := List.mem_map.mp hmem
    exact ⟨a, (List.mem_filter.mp ha).1, hurl.symm⟩
  · unfold groupPosters at hmem
    rw [lookupD_foldl_posterStep _ _ (by rfl) k, lookupD_posterInit,
      List.nil_append] at hmem
    obtain ⟨a, ha, hurl⟩ := List.mem_map.mp hmem
    exact ⟨a, (List.mem_filter.mp ha).1, hurl.symm⟩
  · unfold groupLogos at hmem
    rw [lookupD_foldl_logoStep,
      show lookupD ([] : StrMap) k = [] from rfl, List.nil_append] at hmem
    obtain ⟨a, ha, hurl⟩ := List.mem_map.mp hmem
    exact ⟨a, (List.mem_filter.mp ha).1, hurl.symm⟩

/-- Witness for C9: the single URL of a one-poster catalog comes from that
asset by prefix concatenation. -/
theorem grouped_url_concat_witness :
    ∃ a, a ∈ ([⟨some "en", "/p1.jpg"⟩] : List ImageAsset)
      ∧ (IMG_URL ++ "/p1.jpg") = IMG_URL ++ a.file_path :=
  (grouped_url_concat [⟨some "en", "/p1.jpg"⟩] "en" (IMG_URL ++ "/p1.jpg")).2.1
    (by decide)

/-! ### Claim theorems: the skipped list -/

theorem backdropCond_iff (gb : StrMap) :
    (((lookupD gb "en").length == 0 && (lookupD gb "hi").length == 0
        && (lookupD gb "null").length == 0) = true)
      ↔ (lookupD gb "en" = [] ∧ lookupD gb "hi" = [] ∧ lookupD gb "null" = []) := by
  simp [List.length_eq_zero, and_assoc]

theorem posterCond_iff (gp : StrMap) :
    (((posterLangs.filter (fun l => (lookupD gp l).length == 0)).length != 0) = true)
      ↔ posterLangs.filter (fun l => (lookupD gp l).length == 0) ≠ [] := by
  simp [bne_iff_ne, List.length_eq_zero]

theorem logosCond_iff (gl : StrMap) : ((gl.length == 0) = true) ↔ gl = [] := by
  simp [List.length_eq_zero]

theorem mem_skippedOf (gb gp gl : StrMap) (x : String) :
    x ∈ skippedOf gb gp gl
      ↔ ((x = "Backdrops (en/hi/null)"
            ∧ (lookupD gb "en" = [] ∧ lookupD gb "hi" = [] ∧ lookupD gb "null" = []))
        ∨ (x = "Posters ("
              ++ String.intercalate ", "
                  (posterLangs.filter (fun l => (lookupD gp l).length == 0))
              ++ ")"
            ∧ posterLangs.filter (fun l => (lookupD gp l).length == 0) ≠ [])
        ∨ (x = "Logos (All Languages)" ∧ gl = [])) := by
  simp only [skippedOf]
  by_cases h1 : ((lookupD gb "en").length == 0 && (lookupD gb "hi").length == 0
      && (lookupD gb "null").length == 0) = true
  <;> by_cases h2 : ((posterLangs.filter (fun l => (lookupD gp l).length == 0)).length
      != 0) = true
  <;> by_cases h3 : (gl.length == 0) = true
  <;> simp [h1, h2, h3, (backdropCond_iff gb).symm, (posterCond_iff gp).symm,
        (logosCond_iff gl).symm]

/-- C6 counterexample: with a single English poster and nothing else, the en
poster bucket is non-empty, yet a posters entry appears in the skipped list —
so the posters label does not require all of that category's buckets to be
empty. -/
theorem skipped_posters_counterexample :
    lookupD (groupPosters [⟨some "en", "/p1.jpg"⟩]) "en" ≠ []
      ∧ "Posters (hi, ta, te, ja, ko)"
          ∈ skippedOf (groupBackdrops []) (groupPosters [⟨some "en", "/p1.jpg"⟩])
              (groupLogos []) := by
  exact ⟨by decide, by decide⟩

/-- C6 (amended): in the skipped list, the backdrops label appears iff all
three backdrop buckets are empty, and the logos label appears iff the logos
mapping has zero keys; the posters entry, which lists exactly the empty
buckets, appears iff at least one of the six poster buckets is empty — not
only when all of them are. -/
theorem skippedOf_iff (gb gp gl : StrMap) :
    ("Backdrops (en/hi/null)" ∈ skippedOf gb gp gl
        ↔ (lookupD gb "en" = [] ∧ lookupD gb "hi" = [] ∧ lookupD gb "null" = []))
      ∧ (("Posters ("
            ++ String.intercalate ", "
                (posterLangs.filter (fun l => (lookupD gp l).length == 0))
            ++ ")") ∈ skippedOf gb gp gl
        ↔ posterLangs.filter (fun l => (lookupD gp l).length == 0) ≠ [])
      ∧ ("Logos (All Languages)" ∈ skippedOf gb gp gl ↔ gl = []) := by
  refine ⟨?_, ?_, ?_⟩
  · rw [mem_skippedOf]
    constructor
    · rintro (⟨_, h⟩ | ⟨heq, _⟩ | ⟨heq, _⟩)
      · exact h
      · exact absurd heq.symm (postersEntry_ne_backdrops _)
      · exact absurd heq (by decide)
    · intro h
      exact Or.inl ⟨rfl, h⟩
  · rw [mem_skippedOf]
    constructor
    · rintro (⟨heq, _⟩ | ⟨_, h⟩ | ⟨heq, _⟩)
      · exact absurd heq (postersEntry_ne_backdrops _)
      · exact h
      · exact absurd heq (postersEntry_ne_logos _)
    · intro h
      exact Or.inr (Or.inl ⟨rfl, h⟩)
  · rw [mem_skippedOf]
    constructor
    · rintro (⟨heq, _⟩ | ⟨heq, _⟩ | ⟨_, h⟩)
      · exact absurd heq (by decide)
      · exact absurd heq.symm (postersEntry_ne_logos _)
      · exact h
    · intro h
      exact Or.inr (Or.inr ⟨rfl, h⟩)

/-- Witness for C6 (amended) at concrete groupings: an empty logos mapping
puts the logos label into the skipped list. -/
theorem skippedOf_iff_witness :
    "Logos (All Languages)"
      ∈ skippedOf [("en", ["u"]), ("hi", []), ("null", [])]
          [("en", ["u"]), ("hi", ["u"]), ("ta", ["u"]), ("te", ["u"]),
            ("ja", ["u"]), ("ko", ["u"])] [] :=
  (skippedOf_iff [("en", ["u"]), ("hi", []), ("null", [])]
      [("en", ["u"]), ("hi", ["u"]), ("ta", ["u"]), ("te", ["u"]),
        ("ja", ["u"]), ("ko", ["u"])] []).2.2.mpr rfl
